import Mathlib

/-!
Shallow embedding of the enrollment-span / visit-aggregation pipeline
(`task_b.py`).  The two pandas stages are modelled as pure functions on
lists of typed rows:

* `spanBuilder` embeds Step 1 (lines 85-122): sort by (patient_id,
  month_year), group rows by the month-difference test
  `dt.diff() != 1` / `cumsum`, attach per-group min/max month_year
  (`transform`), keep rows equal to their group min or max, project to
  (patient_id, enrollment_start_date, enrollment_end_date),
  drop_duplicates, and roll the end date to the last day of its month
  (`MonthEnd(0)`).
* `visitAggregate` embeds Step 2 (lines 159-181): inner merge on
  patient_id, filter to dates inside [enrollment_start, enrollment_end],
  groupby-transform sum of visit counts, conditional de-duplication on
  (patient, span, date), groupby-transform count, projection and final
  drop_duplicates.

`patient_id` is a string in the source; here it is modelled as a `Nat`,
whose linear order stands for the lexicographic order that
`sort_values` uses on the string column.  Dates are triples
(year, month, day) with chronological order, as produced by
`pd.to_datetime`.
-/

/-- A calendar date (year, month, day), as produced by `pd.to_datetime`. -/
structure Date where
  year : Nat
  month : Nat
  day : Nat
deriving DecidableEq, Repr

/-- Chronological comparison of dates (pandas datetime `<=`). -/
def dateLe (a b : Date) : Bool :=
  a.year < b.year ||
    (a.year == b.year &&
      (a.month < b.month || (a.month == b.month && a.day ≤ b.day)))

/-- Smaller of two dates. -/
def dateMin (a b : Date) : Date := if dateLe a b then a else b

/-- Larger of two dates. -/
def dateMax (a b : Date) : Date := if dateLe a b then b else a

/-- Gregorian leap-year rule (what pandas' calendar arithmetic uses). -/
def isLeapYear (y : Nat) : Bool :=
  (y % 4 == 0 && y % 100 != 0) || (y % 400 == 0)

/-- Number of days of month `m` of year `y`. -/
def daysInMonth (y m : Nat) : Nat :=
  if m == 2 then (if isLeapYear y then 29 else 28)
  else if m == 4 || m == 6 || m == 9 || m == 11 then 30
  else 31

/-- `d + MonthEnd(0)` (line 122): roll the date forward to the last
calendar day of its month; a date already at month end stays put, which
gives the same result. -/
def monthEnd (d : Date) : Date :=
  ⟨d.year, d.month, daysInMonth d.year d.month⟩

/-- One row of the enrollment file after typing: `patient_id`,
`month_year` (line 60, line 85). -/
structure ERow where
  patient_id : Nat
  month_year : Date
deriving DecidableEq, Repr

/-- The sort key of line 86: `sort_values(by=[patient_id, month_year])`. -/
def ERow.le (a b : ERow) : Bool :=
  a.patient_id < b.patient_id ||
    (a.patient_id == b.patient_id && dateLe a.month_year b.month_year)

/-- The sort key of line 86 as a decidable relation. -/
def ERow.lep (a b : ERow) : Prop := ERow.le a b = true

instance : DecidableRel ERow.lep := fun a b =>
  decidable_of_iff (ERow.le a b = true) Iff.rfl

/-- Line 86: stable sort of the enrollment frame by
(patient_id, month_year). -/
def sortE (l : List ERow) : List ERow := l.insertionSort ERow.lep

/-- Tail of the group-assignment walk: `prev` is the previous row's
month, `g` the current group number.  A row whose month minus the
previous month is exactly 1 continues the group; otherwise
`breaks` is true and the cumulative sum advances. -/
def groupsFrom (prev : Int) (g : Nat) : List ERow → List (ERow × Nat)
  | [] => []
  | r :: rs =>
    if (r.month_year.month : Int) - prev == 1 then
      (r, g) :: groupsFrom (r.month_year.month : Int) g rs
    else
      (r, g + 1) :: groupsFrom (r.month_year.month : Int) (g + 1) rs

/-- Lines 106-109: `breaks = dt.diff() != 1; groups = breaks.cumsum()`.
The first row always breaks (its diff is NaN, and NaN != 1 holds), so it
opens group 1.  Note that only the `month` column is consulted: neither
the year nor the patient_id takes part in the break test. -/
def assignGroups : List ERow → List (ERow × Nat)
  | [] => []
  | r :: rs => (r, 1) :: groupsFrom (r.month_year.month : Int) 1 rs

/-- The `month_year` values of the rows carrying group number `gid`. -/
def groupDates (g : List (ERow × Nat)) (gid : Nat) : List Date :=
  (g.filter (fun p => p.2 == gid)).map (fun p => p.1.month_year)

/-- Minimum of a list of dates. -/
def listMinD : List Date → Option Date
  | [] => none
  | d :: ds =>
    some (match listMinD ds with
          | none => d
          | some m => dateMin d m)

/-- Maximum of a list of dates. -/
def listMaxD : List Date → Option Date
  | [] => none
  | d :: ds =>
    some (match listMaxD ds with
          | none => d
          | some m => dateMax d m)

/-- Line 112: `groupby(groups)[month_year].transform(min)` evaluated at
row `p`.  The default is never consulted, because `p`'s own date belongs
to `p`'s group. -/
def gmin (g : List (ERow × Nat)) (p : ERow × Nat) : Date :=
  (listMinD (groupDates g p.2)).getD p.1.month_year

/-- Line 113: `groupby(groups)[month_year].transform(max)` at row `p`. -/
def gmax (g : List (ERow × Nat)) (p : ERow × Nat) : Date :=
  (listMaxD (groupDates g p.2)).getD p.1.month_year

/-- One intermediate / output row of Step 1. -/
structure SpanRow where
  patient_id : Nat
  enrollment_start_date : Date
  enrollment_end_date : Date
deriving DecidableEq, Repr

/-- Worker for keep-first de-duplication: `seen` is the list of key
values already emitted. -/
def dedupKeyAux {α κ : Type} [DecidableEq κ] (key : α → κ) (seen : List κ) :
    List α → List α
  | [] => []
  | x :: xs =>
    if key x ∈ seen then dedupKeyAux key seen xs
    else x :: dedupKeyAux key (key x :: seen) xs

/-- `drop_duplicates(subset=key, keep=first)`. -/
def dedupKey {α κ : Type} [DecidableEq κ] (key : α → κ) (l : List α) : List α :=
  dedupKeyAux key [] l

/-- Lines 106-117: sort; assign groups; keep the rows whose
`month_year` equals their group minimum or maximum (line 116); project
each kept row to (patient_id, group min, group max) (lines 112-117). -/
def spanTriples (enr : List ERow) : List SpanRow :=
  let g := assignGroups (sortE enr)
  (g.filter (fun p => gmin g p == p.1.month_year || gmax g p == p.1.month_year)).map
    (fun p => SpanRow.mk p.1.patient_id (gmin g p) (gmax g p))

/-- Step 1 (lines 85-122): the SpanBuilder stage.  Build the raw
(patient_id, start, end) triples, `drop_duplicates` them (line 118),
then roll the end date to the last day of its month (line 122). -/
def spanBuilder (enr : List ERow) : List SpanRow :=
  (dedupKey (fun s : SpanRow => s) (spanTriples enr)).map
    (fun s =>
      SpanRow.mk s.patient_id s.enrollment_start_date (monthEnd s.enrollment_end_date))

/-- Line 93: the printed sanity check
`(pt_enrollment_span.year == 2023).all()`, evaluated on the sorted
frame. -/
def yearCheck (enr : List ERow) : Bool :=
  (sortE enr).all (fun r => r.month_year.year == 2023)

/-- One row of the outpatient-visit file after typing (lines 142-155):
`patient_id`, `date`, `outpatient_visit_count`. -/
structure VRow where
  patient_id : Nat
  date : Date
  outpatient_visit_count : Nat
deriving DecidableEq, Repr

/-- One row of the merged frame `combined` (line 159). -/
structure CRow where
  patient_id : Nat
  enrollment_start_date : Date
  enrollment_end_date : Date
  date : Date
  outpatient_visit_count : Nat
deriving DecidableEq, Repr

/-- One row of the final output `result.csv` (lines 180-182). -/
structure OutRow where
  patient_id : Nat
  enrollment_start_date : Date
  enrollment_end_date : Date
  ct_outpatient_visits : Nat
  ct_days_with_outpatient_visit : Nat
deriving DecidableEq, Repr

/-- Line 159: `pd.merge` on the single common column `patient_id`
(inner join): every span row is paired with every visit row of the same
patient, in left-frame order. -/
def merged : List SpanRow → List VRow → List CRow
  | [], _ => []
  | s :: ss, vs =>
    ((vs.filter (fun v => v.patient_id == s.patient_id)).map
      (fun v => CRow.mk s.patient_id s.enrollment_start_date s.enrollment_end_date
                  v.date v.outpatient_visit_count))
      ++ merged ss vs

/-- The filter condition of line 167:
`enrollment_start_date <= date <= enrollment_end_date`. -/
def CRow.inRange (c : CRow) : Bool :=
  dateLe c.enrollment_start_date c.date && dateLe c.date c.enrollment_end_date

/-- The groupby key of lines 168 and 177:
(patient_id, enrollment_start_date, enrollment_end_date). -/
def spanKey (c : CRow) : Nat × Date × Date :=
  (c.patient_id, c.enrollment_start_date, c.enrollment_end_date)

/-- The `duplicated`/`drop_duplicates` subset key of lines 173-175:
(patient_id, enrollment_start_date, enrollment_end_date, date). -/
def dayKey (c : CRow) : Nat × Date × Date × Date :=
  (c.patient_id, c.enrollment_start_date, c.enrollment_end_date, c.date)

/-- Line 168: `groupby(spanKey)[outpatient_visit_count].transform(sum)`
evaluated at group `k`. -/
def ctVisits (l : List CRow) (k : Nat × Date × Date) : Nat :=
  ((l.filter (fun c => spanKey c == k)).map
    (fun c => c.outpatient_visit_count)).sum

/-- Line 177: `groupby(spanKey)[outpatient_visit_count].transform(count)`
at group `k`.  Every count of the typed frame is non-NA, so the pandas
count equals the group size. -/
def ctDays (l : List CRow) (k : Nat × Date × Date) : Nat :=
  (l.filter (fun c => spanKey c == k)).length

/-- Line 173: `combined.duplicated(subset=dayKey).any()`. -/
def hasDupDays (l : List CRow) : Bool := !(decide (l.map dayKey).Nodup)

/-- Lines 173-175: de-duplicate on (patient, span, date), keep=first,
but only when duplicates exist (`drop_duplicates` is the identity
otherwise, so the branch matters only for faithfulness). -/
def maybeDedup (l : List CRow) : List CRow :=
  if hasDupDays l then dedupKey dayKey l else l

/-- Step 2 (lines 159-181): the VisitAggregator stage.  Merge on
patient_id; keep in-range rows; `transform(sum)` attaches the group
total of `outpatient_visit_count` to every (pre-dedup) row, so after
the conditional de-duplication each surviving row carries
`ctVisits f (spanKey row)`; `transform(count)` then attaches the
post-dedup group size; dropping the date and count columns projects to
the output shape, and the final `drop_duplicates` keeps one row per
group. -/
def visitAggregate (spans : List SpanRow) (visits : List VRow) : List OutRow :=
  let f := (merged spans visits).filter CRow.inRange
  let d := maybeDedup f
  let out := d.map (fun c =>
    OutRow.mk c.patient_id c.enrollment_start_date c.enrollment_end_date
      (ctVisits f (spanKey c)) (ctDays d (spanKey c)))
  dedupKey (fun o : OutRow => o) out

/-- The whole pipeline: Step 1 feeding Step 2. -/
def pipeline (enr : List ERow) (visits : List VRow) : List OutRow :=
  visitAggregate (spanBuilder enr) visits

/-- A raw cell of a string column: missing or present.  Any present
string is accepted by `dtype=string`, so there is no malformed case.
The string value itself is abstracted as a `Nat`. -/
inductive StrCell
  | na
  | val (s : Nat)
deriving DecidableEq, Repr

/-- A raw cell of a date column before `to_datetime`: missing (NaN,
which `to_datetime` maps to NaT), a string that parses under %m/%d/%y,
or a non-missing string that does not parse (`to_datetime` raises on
it, since `errors` is left at its default `raise`). -/
inductive DateCell
  | na
  | val (d : Date)
  | bad
deriving DecidableEq, Repr

/-- A raw cell of the Int64 count column as `read_csv` sees it:
missing, numeric, or non-numeric text (`read_csv` raises on the
dtype cast). -/
inductive IntCell
  | na
  | val (n : Nat)
  | bad
deriving DecidableEq, Repr

/-- A raw row of the enrollment file. -/
structure RawERow where
  patient_id : StrCell
  month_year : DateCell
deriving DecidableEq, Repr

/-- True when every field of the row is missing. -/
def RawERow.allNA : RawERow → Bool
  | ⟨StrCell.na, DateCell.na⟩ => true
  | _ => false

/-- Line 66: `dropna(how=all)` on the enrollment frame. -/
def dropnaE (l : List RawERow) : List RawERow := l.filter (fun r => !r.allNA)

/-- `pd.to_datetime` on one cell (lines 85 and 155): NaN becomes NaT
(kept, as `none`), a parseable string becomes a date, and an
unparseable one raises, aborting the run. -/
def toDatetime : DateCell → Except Unit (Option Date)
  | DateCell.na => Except.ok none
  | DateCell.val d => Except.ok (some d)
  | DateCell.bad => Except.error ()

/-- Effectful column map: apply `f` to every row, aborting the run at
the first failure (the behavior of a raising pandas conversion). -/
def exceptMap {α β : Type} (f : α → Except Unit β) : List α → Except Unit (List β)
  | [] => Except.ok []
  | x :: xs => (f x).bind (fun y => (exceptMap f xs).map (fun ys => y :: ys))

/-- Lines 60-85 of Step 1 on raw rows: read the typed columns, drop the
rows whose every field is missing, then convert `month_year` with
`to_datetime`, which aborts the run on the first unparseable value. -/
def ingestEnrollment (l : List RawERow) :
    Except Unit (List (StrCell × Option Date)) :=
  exceptMap
    (fun r => (toDatetime r.month_year).map (fun d => (r.patient_id, d)))
    (dropnaE l)

/-- A raw row of the outpatient-visit file. -/
structure RawVRow where
  patient_id : StrCell
  date : DateCell
  outpatient_visit_count : IntCell
deriving DecidableEq, Repr

/-- True when every field of the row is missing. -/
def RawVRow.allNA : RawVRow → Bool
  | ⟨StrCell.na, DateCell.na, IntCell.na⟩ => true
  | _ => false

/-- Line 142: `read_csv` with `dtype=Int64` raises on a non-numeric
count cell, before any row is dropped. -/
def readVisitCsv (l : List RawVRow) : Except Unit (List RawVRow) :=
  if l.all (fun r => !(r.outpatient_visit_count == IntCell.bad)) then
    Except.ok l
  else
    Except.error ()

/-- Line 149: `dropna(how=all)` on the visit frame. -/
def dropnaV (l : List RawVRow) : List RawVRow := l.filter (fun r => !r.allNA)

/-- Lines 142-155 of Step 2 on raw rows: the typed read (which raises
on a non-numeric count), the wholesale-NA drop, then `to_datetime` on
the date column (which raises on an unparseable date). -/
def ingestVisits (l : List RawVRow) :
    Except Unit (List (StrCell × Option Date × IntCell)) :=
  (readVisitCsv l).bind (fun l2 =>
    exceptMap
      (fun r => (toDatetime r.date).map
        (fun d => (r.patient_id, d, r.outpatient_visit_count)))
      (dropnaV l2))

/-- The (patient_id, enrollment_start_date, enrollment_end_date) triple
of a span row; equality of this key is equality of the whole row. -/
def SpanRow.key (s : SpanRow) : Nat × Date × Date :=
  (s.patient_id, s.enrollment_start_date, s.enrollment_end_date)

/-- Specification-side helper: the visit rows of patient `k.1` whose
date lies in the closed interval [k.2.1, k.2.2]. -/
def inSpanVisits (visits : List VRow) (k : Nat × Date × Date) : List VRow :=
  visits.filter (fun v =>
    v.patient_id == k.1 && (dateLe k.2.1 v.date && dateLe v.date k.2.2))

/-- Forgetting the date component of a `dayKey` yields the `spanKey`. -/
def dayKeySpan (k : Nat × Date × Date × Date) : Nat × Date × Date :=
  (k.1, k.2.1, k.2.2.1)

/-- Specification-side helper: two spans overlap when some date lies in
both closed intervals. -/
def spansOverlap (a b : SpanRow) : Bool :=
  dateLe a.enrollment_start_date b.enrollment_end_date &&
    dateLe b.enrollment_start_date a.enrollment_end_date

/-! ### Order facts about dates and enrollment rows -/

theorem dateLe_iff (a b : Date) :
    dateLe a b = true ↔
      (a.year < b.year ∨ (a.year = b.year ∧
        (a.month < b.month ∨ (a.month = b.month ∧ a.day ≤ b.day)))) := by
  simp [dateLe, Bool.or_eq_true, Bool.and_eq_true, decide_eq_true_eq,
    beq_iff_eq]

theorem dateLe_total (a b : Date) : dateLe a b = true ∨ dateLe b a = true := by
  rw [dateLe_iff, dateLe_iff]
  omega

theorem dateLe_trans {a b c : Date} (h1 : dateLe a b = true)
    (h2 : dateLe b c = true) : dateLe a c = true := by
  rw [dateLe_iff] at h1 h2 ⊢
  omega

theorem dateLe_antisymm {a b : Date} (h1 : dateLe a b = true)
    (h2 : dateLe b a = true) : a = b := by
  rw [dateLe_iff] at h1 h2
  cases a with
  | mk ya ma da =>
    cases b with
    | mk yb mb db =>
      simp only [Date.mk.injEq]
      simp only at h1 h2
      omega

theorem dateLe_refl (a : Date) : dateLe a a = true := by
  rw [dateLe_iff]
  omega

theorem erowLe_iff (a b : ERow) :
    ERow.le a b = true ↔
      (a.patient_id < b.patient_id ∨
        (a.patient_id = b.patient_id ∧ dateLe a.month_year b.month_year = true)) := by
  simp [ERow.le, Bool.or_eq_true, Bool.and_eq_true, decide_eq_true_eq,
    beq_iff_eq]

instance : IsTotal ERow ERow.lep :=
  ⟨fun a b => by
    unfold ERow.lep
    rw [erowLe_iff, erowLe_iff]
    rcases Nat.lt_trichotomy a.patient_id b.patient_id with h | h | h
    · exact Or.inl (Or.inl h)
    · rcases dateLe_total a.month_year b.month_year with hd | hd
      · exact Or.inl (Or.inr ⟨h, hd⟩)
      · exact Or.inr (Or.inr ⟨h.symm, hd⟩)
    · exact Or.inr (Or.inl h)⟩

instance : IsTrans ERow ERow.lep :=
  ⟨fun a b c hab hbc => by
    unfold ERow.lep at hab hbc ⊢
    rw [erowLe_iff] at hab hbc ⊢
    rcases hab with h1 | ⟨h1, hd1⟩
    · rcases hbc with h2 | ⟨h2, _⟩
      · exact Or.inl (h1.trans h2)
      · exact Or.inl (h2 ▸ h1)
    · rcases hbc with h2 | ⟨h2, hd2⟩
      · exact Or.inl (h1 ▸ h2)
      · exact Or.inr ⟨h1.trans h2, dateLe_trans hd1 hd2⟩⟩

instance : IsAntisymm ERow ERow.lep :=
  ⟨fun a b hab hba => by
    unfold ERow.lep at hab hba
    rw [erowLe_iff] at hab hba
    cases a with
    | mk pa da =>
      cases b with
      | mk pb db =>
        simp only at hab hba
        rcases hab with h1 | ⟨h1, hd1⟩
        · rcases hba with h2 | ⟨h2, _⟩ <;> omega
        · rcases hba with h2 | ⟨h2, hd2⟩
          · omega
          · simp only [ERow.mk.injEq]
            exact ⟨h1, dateLe_antisymm hd1 hd2⟩⟩

theorem sortE_perm (l : List ERow) : (sortE l).Perm l :=
  List.perm_insertionSort _ l

theorem sortE_sorted (l : List ERow) : List.Sorted ERow.lep (sortE l) :=
  List.sorted_insertionSort _ l

/-- Two permutations of the same multiset of enrollment rows sort to the
same list: the sort key (patient_id, month_year) is the whole row, so
the order is antisymmetric on rows. -/
theorem sortE_eq_of_perm {l1 l2 : List ERow} (h : l1.Perm l2) :
    sortE l1 = sortE l2 :=
  List.eq_of_perm_of_sorted ((sortE_perm l1).trans (h.trans (sortE_perm l2).symm))
    (sortE_sorted l1) (sortE_sorted l2)

theorem mem_sortE {r : ERow} {l : List ERow} : r ∈ sortE l ↔ r ∈ l :=
  List.mem_insertionSort ERow.lep

/-! ### Facts about keep-first de-duplication -/

theorem dedupKeyAux_sublist {α κ : Type} [DecidableEq κ] (key : α → κ)
    (seen : List κ) (l : List α) : (dedupKeyAux key seen l).Sublist l := by
  induction l generalizing seen with
  | nil => simp [dedupKeyAux]
  | cons x xs ih =>
    simp only [dedupKeyAux]
    split
    · exact (ih seen).cons x
    · exact (ih (key x :: seen)).cons₂ x

theorem dedupKey_sublist {α κ : Type} [DecidableEq κ] (key : α → κ)
    (l : List α) : (dedupKey key l).Sublist l :=
  dedupKeyAux_sublist key [] l

theorem mem_of_mem_dedupKey {α κ : Type} [DecidableEq κ] {key : α → κ}
    {l : List α} {x : α} (h : x ∈ dedupKey key l) : x ∈ l :=
  (dedupKey_sublist key l).mem h

theorem mem_dedupKeyAux_id {α : Type} [DecidableEq α] (seen : List α)
    (l : List α) (x : α) :
    x ∈ dedupKeyAux (fun a => a) seen l ↔ x ∈ l ∧ x ∉ seen := by
  induction l generalizing seen with
  | nil => simp [dedupKeyAux]
  | cons y ys ih =>
    by_cases h : y ∈ seen
    · simp only [dedupKeyAux, if_pos h, ih seen, List.mem_cons]
      constructor
      · exact fun hm => ⟨Or.inr hm.1, hm.2⟩
      · rintro ⟨hxy | hx, hs⟩
        · exact absurd (hxy ▸ h) hs
        · exact ⟨hx, hs⟩
    · simp only [dedupKeyAux, if_neg h, List.mem_cons, ih (y :: seen)]
      constructor
      · rintro (hxy | ⟨hx, hs⟩)
        · exact ⟨Or.inl hxy, hxy ▸ h⟩
        · exact ⟨Or.inr hx, fun hc => hs (Or.inr hc)⟩
      · rintro ⟨hxy | hx, hs⟩
        · exact Or.inl hxy
        · by_cases hxy : x = y
          · exact Or.inl hxy
          · exact Or.inr ⟨hx, by
              intro hc
              rcases hc with hc1 | hc2
              · exact hxy hc1
              · exact hs hc2⟩

theorem mem_dedupKey_id {α : Type} [DecidableEq α] (l : List α) (x : α) :
    x ∈ dedupKey (fun a => a) l ↔ x ∈ l := by
  rw [dedupKey, mem_dedupKeyAux_id]
  simp

theorem map_key_dedupKeyAux_toFinset {α κ : Type} [DecidableEq κ]
    (key : α → κ) (seen : List κ) (l : List α) :
    ((dedupKeyAux key seen l).map key).toFinset =
      (l.map key).toFinset \ seen.toFinset := by
  induction l generalizing seen with
  | nil => simp [dedupKeyAux]
  | cons x xs ih =>
    by_cases h : key x ∈ seen
    · rw [dedupKeyAux, if_pos h, ih seen, List.map_cons, List.toFinset_cons,
        Finset.insert_sdiff_of_mem _ (List.mem_toFinset.mpr h)]
    · simp only [dedupKeyAux, if_neg h, List.map_cons, List.toFinset_cons,
        ih (key x :: seen)]
      ext z
      simp only [Finset.mem_insert, Finset.mem_sdiff, List.toFinset_cons,
        List.mem_toFinset]
      constructor
      · rintro (hz | ⟨hz1, hz2⟩)
        · subst hz
          exact ⟨Or.inl rfl, h⟩
        · exact ⟨Or.inr hz1, fun hc => hz2 (Or.inr hc)⟩
      · rintro ⟨hz1 | hz1, hz2⟩
        · exact Or.inl hz1
        · by_cases hzx : z = key x
          · exact Or.inl hzx
          · exact Or.inr ⟨hz1, by
              intro hc
              rcases hc with hc1 | hc2
              · exact hzx hc1
              · exact hz2 hc2⟩

theorem length_dedupKeyAux {α κ : Type} [DecidableEq κ]
    (key : α → κ) (seen : List κ) (l : List α) :
    (dedupKeyAux key seen l).length =
      ((l.map key).toFinset \ seen.toFinset).card := by
  induction l generalizing seen with
  | nil => simp [dedupKeyAux]
  | cons x xs ih =>
    by_cases h : key x ∈ seen
    · rw [dedupKeyAux, if_pos h, ih seen, List.map_cons, List.toFinset_cons,
        Finset.insert_sdiff_of_mem _ (List.mem_toFinset.mpr h)]
    · simp only [dedupKeyAux, if_neg h, List.length_cons, ih (key x :: seen),
        List.map_cons, List.toFinset_cons]
      rw [Finset.sdiff_insert,
        Finset.insert_sdiff_of_not_mem _ (fun hc => h (List.mem_toFinset.mp hc))]
      set T := (xs.map key).toFinset \ seen.toFinset with hT
      by_cases hm : key x ∈ T
      · rw [Finset.card_insert_of_mem hm, Finset.card_erase_add_one hm]
      · rw [Finset.card_insert_of_not_mem hm, Finset.erase_eq_of_not_mem hm]

theorem length_dedupKey {α κ : Type} [DecidableEq κ] (key : α → κ)
    (l : List α) :
    (dedupKey key l).length = (l.map key).toFinset.card := by
  rw [dedupKey, length_dedupKeyAux]
  simp

theorem dedupKeyAux_eq_self {α κ : Type} [DecidableEq κ] (key : α → κ)
    (seen : List κ) (l : List α) (hnd : (l.map key).Nodup)
    (hdisj : ∀ x ∈ l, key x ∉ seen) : dedupKeyAux key seen l = l := by
  induction l generalizing seen with
  | nil => simp [dedupKeyAux]
  | cons x xs ih =>
    rw [List.map_cons, List.nodup_cons] at hnd
    rw [dedupKeyAux, if_neg (hdisj x (List.mem_cons_self x xs))]
    congr 1
    refine ih (key x :: seen) hnd.2 fun y hy => ?_
    intro hc
    rcases List.mem_cons.mp hc with hc1 | hc2
    · exact hnd.1 (hc1 ▸ List.mem_map_of_mem key hy)
    · exact hdisj y (List.mem_cons_of_mem x hy) hc2

/-! ### More de-duplication facts -/

theorem list_toFinset_map {α β : Type} [DecidableEq α] [DecidableEq β]
    (f : α → β) (l : List α) : (l.map f).toFinset = l.toFinset.image f := by
  ext b
  simp [List.mem_toFinset, List.mem_map, Finset.mem_image]

theorem filter_dedupKeyAux {α κ : Type} [DecidableEq κ] (key : α → κ)
    (p : α → Bool) (hkey : ∀ x y, key x = key y → p x = p y) :
    ∀ (l : List α) (seen1 seen2 : List κ),
      (∀ a, p a = true → (key a ∈ seen1 ↔ key a ∈ seen2)) →
      (dedupKeyAux key seen2 l).filter p = dedupKeyAux key seen1 (l.filter p) := by
  intro l
  induction l with
  | nil => intro seen1 seen2 _; simp [dedupKeyAux]
  | cons x xs ih =>
    intro seen1 seen2 hs
    by_cases hp : p x = true
    · by_cases h2 : key x ∈ seen2
      · have h1 : key x ∈ seen1 := (hs x hp).mpr h2
        rw [dedupKeyAux, if_pos h2, List.filter_cons_of_pos hp,
          dedupKeyAux, if_pos h1]
        exact ih seen1 seen2 hs
      · have h1 : key x ∉ seen1 := fun hc => h2 ((hs x hp).mp hc)
        rw [dedupKeyAux, if_neg h2, List.filter_cons_of_pos hp,
          List.filter_cons_of_pos hp, dedupKeyAux, if_neg h1]
        congr 1
        refine ih (key x :: seen1) (key x :: seen2) fun a ha => ?_
        constructor
        · intro hmem
          rcases List.mem_cons.mp hmem with hc | hc
          · exact hc ▸ List.mem_cons_self _ _
          · exact List.mem_cons_of_mem _ ((hs a ha).mp hc)
        · intro hmem
          rcases List.mem_cons.mp hmem with hc | hc
          · exact hc ▸ List.mem_cons_self _ _
          · exact List.mem_cons_of_mem _ ((hs a ha).mpr hc)
    · rw [List.filter_cons_of_neg hp]
      by_cases h2 : key x ∈ seen2
      · rw [dedupKeyAux, if_pos h2]
        exact ih seen1 seen2 hs
      · rw [dedupKeyAux, if_neg h2, List.filter_cons_of_neg hp]
        refine ih seen1 (key x :: seen2) fun a ha => ?_
        rw [hs a ha]
        constructor
        · exact fun hc => List.mem_cons_of_mem _ hc
        · intro hmem
          rcases List.mem_cons.mp hmem with hc | hc
          · exact absurd (hkey a x hc ▸ ha) (by simp [hp])
          · exact hc
  
theorem filter_dedupKey {α κ : Type} [DecidableEq κ] (key : α → κ)
    (p : α → Bool) (hkey : ∀ x y, key x = key y → p x = p y) (l : List α) :
    (dedupKey key l).filter p = dedupKey key (l.filter p) :=
  filter_dedupKeyAux key p hkey l [] [] (fun _ _ => Iff.rfl)

theorem nodup_keys_dedupKeyAux {α κ : Type} [DecidableEq κ] (key : α → κ)
    (seen : List κ) (l : List α) :
    ((dedupKeyAux key seen l).map key).Nodup ∧
      ∀ kk ∈ (dedupKeyAux key seen l).map key, kk ∉ seen := by
  induction l generalizing seen with
  | nil => simp [dedupKeyAux]
  | cons x xs ih =>
    by_cases h : key x ∈ seen
    · rw [dedupKeyAux, if_pos h]
      exact ih seen
    · rw [dedupKeyAux, if_neg h]
      obtain ⟨ihn, ihs⟩ := ih (key x :: seen)
      refine ⟨List.nodup_cons.mpr ⟨fun hc => ?_, ihn⟩, ?_⟩
      · exact ihs (key x) hc (List.mem_cons_self _ _)
      · intro kk hkk
        rcases List.mem_cons.mp hkk with h1 | h2
        · exact h1 ▸ h
        · exact fun hc => ihs kk h2 (List.mem_cons_of_mem _ hc)

theorem nodup_dedupKey_id {α : Type} [DecidableEq α] (l : List α) :
    (dedupKey (fun a => a) l).Nodup := by
  have h := (nodup_keys_dedupKeyAux (fun a : α => a) [] l).1
  rwa [List.map_id'] at h

theorem maybeDedup_eq (l : List CRow) : maybeDedup l = dedupKey dayKey l := by
  unfold maybeDedup hasDupDays
  by_cases h : (l.map dayKey).Nodup
  · rw [if_neg (by simp [h]), dedupKey,
      dedupKeyAux_eq_self dayKey [] l h (by simp)]
  · rw [if_pos (by simp [h])]

/-! ### Facts about the group assignment -/

theorem groupsFrom_map_fst (l : List ERow) :
    ∀ (prev : Int) (g : Nat), (groupsFrom prev g l).map Prod.fst = l := by
  induction l with
  | nil => intro prev g; simp [groupsFrom]
  | cons r rs ih =>
    intro prev g
    rw [groupsFrom]
    split
    · simp [ih]
    · simp [ih]

theorem assignGroups_map_fst (l : List ERow) :
    (assignGroups l).map Prod.fst = l := by
  cases l with
  | nil => simp [assignGroups]
  | cons r rs => simp [assignGroups, groupsFrom_map_fst]

theorem fst_mem_of_mem_assignGroups {l : List ERow} {p : ERow × Nat}
    (hp : p ∈ assignGroups l) : p.1 ∈ l := by
  have h := List.mem_map_of_mem Prod.fst hp
  rwa [assignGroups_map_fst] at h

theorem groupsFrom_cons_eq (prev : Int) (g : Nat) (r : ERow) (rs : List ERow) :
    ∃ gx : Nat, groupsFrom prev g (r :: rs) =
      (r, gx) :: groupsFrom (r.month_year.month : Int) gx rs := by
  rw [groupsFrom]
  split
  · exact ⟨g, rfl⟩
  · exact ⟨g + 1, rfl⟩

theorem groupsFrom_cons_head {prevm : Int} {gx : Nat} {rs : List ERow}
    {b : ERow × Nat} {post : List (ERow × Nat)}
    (h : groupsFrom prevm gx rs = b :: post)
    (hm : ((b.1).month_year.month : Int) - prevm = 1) : b.2 = gx := by
  cases rs with
  | nil => simp [groupsFrom] at h
  | cons r2 rs2 =>
    rw [groupsFrom] at h
    split at h
    next =>
      injection h with h1 _
      rw [← h1]
    next hcond =>
      injection h with h1 _
      exfalso
      apply hcond
      rw [← h1] at hm
      exact beq_iff_eq.mpr hm

/-- Along the grouped frame, a record whose month is exactly one more
than the previous record's month always receives the previous record's
group number. -/
theorem groupsFrom_adj (l : List ERow) :
    ∀ (prev : Int) (g : Nat) (pre post : List (ERow × Nat)) (a b : ERow × Nat),
      groupsFrom prev g l = pre ++ a :: b :: post →
      ((b.1).month_year.month : Int) - ((a.1).month_year.month : Int) = 1 →
      b.2 = a.2 := by
  induction l with
  | nil =>
    intro prev g pre post a b h _
    simp [groupsFrom] at h
  | cons r rs ih =>
    intro prev g pre post a b h hm
    obtain ⟨gx, he⟩ := groupsFrom_cons_eq prev g r rs
    rw [he] at h
    cases pre with
    | nil =>
      rw [List.nil_append] at h
      injection h with h1 h2
      rw [← h1] at hm ⊢
      exact groupsFrom_cons_head h2 hm
    | cons p0 pre2 =>
      rw [List.cons_append] at h
      injection h with h1 h2
      exact ih _ gx pre2 post a b h2 hm

theorem assignGroups_adj (l : List ERow) (pre post : List (ERow × Nat))
    (a b : ERow × Nat) (h : assignGroups l = pre ++ a :: b :: post)
    (hm : ((b.1).month_year.month : Int) - ((a.1).month_year.month : Int) = 1) :
    b.2 = a.2 := by
  cases l with
  | nil => simp [assignGroups] at h
  | cons r rs =>
    rw [assignGroups] at h
    cases pre with
    | nil =>
      rw [List.nil_append] at h
      injection h with h1 h2
      rw [← h1] at hm ⊢
      exact groupsFrom_cons_head h2 hm
    | cons p0 pre2 =>
      rw [List.cons_append] at h
      injection h with h1 h2
      exact groupsFrom_adj rs _ 1 pre2 post a b h2 hm

/-! ### The group min/max are values of the frame -/

theorem listMinD_mem {l : List Date} : ∀ {m : Date}, listMinD l = some m → m ∈ l := by
  induction l with
  | nil => intro m h; simp [listMinD] at h
  | cons d ds ih =>
    intro m h
    rw [listMinD] at h
    cases hds : listMinD ds with
    | none =>
      rw [hds] at h
      simp only [Option.some.injEq] at h
      exact h ▸ List.mem_cons_self d ds
    | some m2 =>
      rw [hds] at h
      simp only [Option.some.injEq] at h
      rw [← h]
      unfold dateMin
      split
      · exact List.mem_cons_self d ds
      · exact List.mem_cons_of_mem d (ih hds)

theorem listMaxD_mem {l : List Date} : ∀ {m : Date}, listMaxD l = some m → m ∈ l := by
  induction l with
  | nil => intro m h; simp [listMaxD] at h
  | cons d ds ih =>
    intro m h
    rw [listMaxD] at h
    cases hds : listMaxD ds with
    | none =>
      rw [hds] at h
      simp only [Option.some.injEq] at h
      exact h ▸ List.mem_cons_self d ds
    | some m2 =>
      rw [hds] at h
      simp only [Option.some.injEq] at h
      rw [← h]
      unfold dateMax
      split
      · exact List.mem_cons_of_mem d (ih hds)
      · exact List.mem_cons_self d ds

theorem mem_groupDates {g : List (ERow × Nat)} {gid : Nat} {d : Date}
    (h : d ∈ groupDates g gid) : ∃ p ∈ g, p.1.month_year = d := by
  rw [groupDates] at h
  obtain ⟨p, hp, hpd⟩ := List.mem_map.mp h
  exact ⟨p, (List.mem_filter.mp hp).1, hpd⟩

theorem gmin_cases (g : List (ERow × Nat)) (p : ERow × Nat) :
    gmin g p = p.1.month_year ∨ ∃ q ∈ g, q.1.month_year = gmin g p := by
  rw [gmin]
  cases h : listMinD (groupDates g p.2) with
  | none => exact Or.inl rfl
  | some m =>
    right
    obtain ⟨q, hq, hqd⟩ := mem_groupDates (listMinD_mem h)
    exact ⟨q, hq, hqd⟩

theorem gmax_cases (g : List (ERow × Nat)) (p : ERow × Nat) :
    gmax g p = p.1.month_year ∨ ∃ q ∈ g, q.1.month_year = gmax g p := by
  rw [gmax]
  cases h : listMaxD (groupDates g p.2) with
  | none => exact Or.inl rfl
  | some m =>
    right
    obtain ⟨q, hq, hqd⟩ := mem_groupDates (listMaxD_mem h)
    exact ⟨q, hq, hqd⟩

/-- Both endpoints of every raw span triple are `month_year` values of
some input row (not necessarily of the same patient). -/
theorem spanTriples_endpoints {enr : List ERow} {t : SpanRow}
    (ht : t ∈ spanTriples enr) :
    (∃ r ∈ enr, t.enrollment_start_date = r.month_year) ∧
      (∃ r ∈ enr, t.enrollment_end_date = r.month_year) := by
  simp only [spanTriples] at ht
  obtain ⟨p, hp, hpt⟩ := List.mem_map.mp ht
  have hpg : p ∈ assignGroups (sortE enr) := (List.mem_filter.mp hp).1
  constructor
  · rcases gmin_cases (assignGroups (sortE enr)) p with hc | ⟨q, hq, hqd⟩
    · refine ⟨p.1, mem_sortE.mp (fst_mem_of_mem_assignGroups hpg), ?_⟩
      rw [← hpt, ← hc]
    · refine ⟨q.1, mem_sortE.mp (fst_mem_of_mem_assignGroups hq), ?_⟩
      rw [← hpt, ← hqd]
  · rcases gmax_cases (assignGroups (sortE enr)) p with hc | ⟨q, hq, hqd⟩
    · refine ⟨p.1, mem_sortE.mp (fst_mem_of_mem_assignGroups hpg), ?_⟩
      rw [← hpt, ← hc]
    · refine ⟨q.1, mem_sortE.mp (fst_mem_of_mem_assignGroups hq), ?_⟩
      rw [← hpt, ← hqd]

/-! ### Facts about the built spans -/

theorem spanBuilder_dates {enr : List ERow} {s : SpanRow}
    (hs : s ∈ spanBuilder enr) :
    (∃ r ∈ enr, s.enrollment_start_date = r.month_year) ∧
      (∃ r ∈ enr, s.enrollment_end_date = monthEnd r.month_year) := by
  rw [spanBuilder] at hs
  obtain ⟨t, ht, hts⟩ := List.mem_map.mp hs
  have h2 := spanTriples_endpoints (mem_of_mem_dedupKey ht)
  constructor
  · obtain ⟨r, hr, he⟩ := h2.1
    exact ⟨r, hr, by rw [← hts]; exact he⟩
  · obtain ⟨r, hr, he⟩ := h2.2
    exact ⟨r, hr, by rw [← hts]; exact congrArg monthEnd he⟩

theorem spanBuilder_end_day {enr : List ERow} {s : SpanRow}
    (hs : s ∈ spanBuilder enr) :
    s.enrollment_end_date.day =
      daysInMonth s.enrollment_end_date.year s.enrollment_end_date.month := by
  rw [spanBuilder] at hs
  obtain ⟨t, _, hts⟩ := List.mem_map.mp hs
  rw [← hts]
  rfl

/-- When every input `month_year` is normalized to the first day of its
month, the built span list has no duplicate rows: the only way two
distinct de-duplicated triples could collapse is by `monthEnd` merging
two ends of the same month with different days, which day-1 inputs rule
out. -/
theorem spanBuilder_nodup {enr : List ERow}
    (hday : ∀ r ∈ enr, r.month_year.day = 1) : (spanBuilder enr).Nodup := by
  rw [spanBuilder]
  refine (nodup_dedupKey_id (spanTriples enr)).map_on ?_
  intro x hx y hy hxy
  obtain ⟨rx, hrx, hrex⟩ := (spanTriples_endpoints (mem_of_mem_dedupKey hx)).2
  obtain ⟨ry, hry, hrey⟩ := (spanTriples_endpoints (mem_of_mem_dedupKey hy)).2
  have hdx : x.enrollment_end_date.day = 1 := by rw [hrex]; exact hday rx hrx
  have hdy : y.enrollment_end_date.day = 1 := by rw [hrey]; exact hday ry hry
  cases x with
  | mk xp xs xe =>
    cases y with
    | mk yp ys ye =>
      simp only [SpanRow.mk.injEq, monthEnd, Date.mk.injEq] at hxy
      simp only at hdx hdy
      obtain ⟨h1, h2, h3, h4, _⟩ := hxy
      cases xe with
      | mk xey xem xed =>
        cases ye with
        | mk yey yem yed =>
          simp only at h3 h4 hdx hdy
          simp only [SpanRow.mk.injEq, Date.mk.injEq]
          exact ⟨h1, h2, h3, h4, by rw [hdx, hdy]⟩

theorem spanBuilder_keys_nodup {enr : List ERow}
    (hday : ∀ r ∈ enr, r.month_year.day = 1) :
    ((spanBuilder enr).map SpanRow.key).Nodup := by
  refine (spanBuilder_nodup hday).map_on ?_
  intro x hx y hy hxy
  cases x with
  | mk xp xs xe =>
    cases y with
    | mk yp ys ye =>
      simp only [SpanRow.key, Prod.mk.injEq] at hxy
      simp only [SpanRow.mk.injEq]
      exact hxy

/-! ### Facts about the merge and the aggregation -/

theorem mem_merged {ss : List SpanRow} {vs : List VRow} {c : CRow} :
    c ∈ merged ss vs →
      (∃ s ∈ ss, spanKey c = SpanRow.key s) ∧
        ∃ v ∈ vs, c.outpatient_visit_count = v.outpatient_visit_count := by
  induction ss with
  | nil => intro h; simp [merged] at h
  | cons s ss ih =>
    intro h
    rw [merged] at h
    rcases List.mem_append.mp h with h1 | h2
    · obtain ⟨v, hv, hvc⟩ := List.mem_map.mp h1
      refine ⟨⟨s, List.mem_cons_self s ss, ?_⟩, ⟨v, (List.mem_filter.mp hv).1, ?_⟩⟩
      · rw [← hvc]; rfl
      · rw [← hvc]
    · obtain ⟨⟨s2, hs2, hk⟩, hv⟩ := ih h2
      exact ⟨⟨s2, List.mem_cons_of_mem s hs2, hk⟩, hv⟩

theorem inSpanVisits_cons_pos {v : VRow} {vs : List VRow} {k : Nat × Date × Date}
    (h : (v.patient_id == k.1 && (dateLe k.2.1 v.date && dateLe v.date k.2.2)) = true) :
    inSpanVisits (v :: vs) k = v :: inSpanVisits vs k := by
  rw [inSpanVisits, inSpanVisits, List.filter_cons, if_pos h]

theorem inSpanVisits_cons_neg {v : VRow} {vs : List VRow} {k : Nat × Date × Date}
    (h : ¬(v.patient_id == k.1 && (dateLe k.2.1 v.date && dateLe v.date k.2.2)) = true) :
    inSpanVisits (v :: vs) k = inSpanVisits vs k := by
  rw [inSpanVisits, inSpanVisits, List.filter_cons, if_neg h]

/-- The contribution of one span row to the filtered merge, restricted
to its own key, is exactly the image of its in-span visit rows. -/
theorem block_filter (s : SpanRow) (vs : List VRow) :
    (((vs.filter fun v => v.patient_id == s.patient_id).map
        (fun v => CRow.mk s.patient_id s.enrollment_start_date s.enrollment_end_date
          v.date v.outpatient_visit_count)).filter CRow.inRange).filter
      (fun c => spanKey c == SpanRow.key s) =
    (inSpanVisits vs (SpanRow.key s)).map
      (fun v => CRow.mk s.patient_id s.enrollment_start_date s.enrollment_end_date
        v.date v.outpatient_visit_count) := by
  induction vs with
  | nil => rfl
  | cons v vs ih =>
    by_cases hq : (v.patient_id == s.patient_id) = true
    · by_cases hr : CRow.inRange (CRow.mk s.patient_id s.enrollment_start_date
          s.enrollment_end_date v.date v.outpatient_visit_count) = true
      · have hkey : (spanKey (CRow.mk s.patient_id s.enrollment_start_date
            s.enrollment_end_date v.date v.outpatient_visit_count) == SpanRow.key s) = true :=
          beq_self_eq_true _
        have hpv : (v.patient_id == (SpanRow.key s).1 &&
            (dateLe (SpanRow.key s).2.1 v.date && dateLe v.date (SpanRow.key s).2.2)) = true := by
          simp only [SpanRow.key, hq, Bool.true_and]
          exact hr
        rw [List.filter_cons, if_pos hq, List.map_cons, List.filter_cons, if_pos hr,
          List.filter_cons, if_pos hkey, inSpanVisits_cons_pos hpv, List.map_cons, ih]
      · have hpv : ¬(v.patient_id == (SpanRow.key s).1 &&
            (dateLe (SpanRow.key s).2.1 v.date && dateLe v.date (SpanRow.key s).2.2)) = true := by
          simp only [SpanRow.key, hq, Bool.true_and]
          exact hr
        rw [List.filter_cons, if_pos hq, List.map_cons, List.filter_cons, if_neg hr,
          inSpanVisits_cons_neg hpv, ih]
    · have hpv : ¬(v.patient_id == (SpanRow.key s).1 &&
          (dateLe (SpanRow.key s).2.1 v.date && dateLe v.date (SpanRow.key s).2.2)) = true := by
        simp only [SpanRow.key, Bool.and_eq_true]
        intro hcon
        exact hq hcon.1
      rw [List.filter_cons, if_neg hq, inSpanVisits_cons_neg hpv, ih]

/-- With pairwise-distinct span keys, the rows of the filtered merge
carrying the key of span `s` are exactly the images of `s`'s in-span
visit rows. -/
theorem filter_key_merged {vs : List VRow} {ss : List SpanRow} {s : SpanRow}
    (hnd : (ss.map SpanRow.key).Nodup) (hs : s ∈ ss) :
    ((merged ss vs).filter CRow.inRange).filter (fun c => spanKey c == SpanRow.key s) =
      (inSpanVisits vs (SpanRow.key s)).map
        (fun v => CRow.mk s.patient_id s.enrollment_start_date s.enrollment_end_date
          v.date v.outpatient_visit_count) := by
  induction ss with
  | nil => exact absurd hs (List.not_mem_nil s)
  | cons s0 ss ih =>
    rw [List.map_cons, List.nodup_cons] at hnd
    rw [merged, List.filter_append, List.filter_append]
    rcases List.mem_cons.mp hs with he | hmem
    · subst he
      have hrest : ((merged ss vs).filter CRow.inRange).filter
          (fun c => spanKey c == SpanRow.key s) = [] := by
        rw [List.filter_eq_nil_iff]
        intro c hc hbeq
        obtain ⟨⟨s2, hs2, hk2⟩, _⟩ := mem_merged (List.mem_filter.mp hc).1
        have h3 : SpanRow.key s = SpanRow.key s2 := by
          rw [← beq_iff_eq.mp hbeq, hk2]
        exact hnd.1 (by rw [h3]; exact List.mem_map_of_mem SpanRow.key hs2)
      rw [hrest, List.append_nil]
      exact block_filter s vs
    · have hblock : (((vs.filter fun v => v.patient_id == s0.patient_id).map
          (fun v => CRow.mk s0.patient_id s0.enrollment_start_date s0.enrollment_end_date
            v.date v.outpatient_visit_count)).filter CRow.inRange).filter
          (fun c => spanKey c == SpanRow.key s) = [] := by
        rw [List.filter_eq_nil_iff]
        intro c hc hbeq
        obtain ⟨v, hv, hvc⟩ := List.mem_map.mp (List.mem_filter.mp hc).1
        have hkc : spanKey c = SpanRow.key s0 := by rw [← hvc]; rfl
        have h4 : SpanRow.key s0 = SpanRow.key s := by
          rw [← hkc]
          exact beq_iff_eq.mp hbeq
        exact hnd.1 (by rw [h4]; exact List.mem_map_of_mem SpanRow.key hmem)
      rw [hblock, List.nil_append]
      exact ih hnd.2 hmem

theorem spanKey_eq_of_dayKey_eq {c1 c2 : CRow} (h : dayKey c1 = dayKey c2) :
    spanKey c1 = spanKey c2 := by
  have h1 : spanKey c1 = dayKeySpan (dayKey c1) := rfl
  have h2 : spanKey c2 = dayKeySpan (dayKey c2) := rfl
  rw [h1, h2, h]

/-- The `transform(sum)` value carried by the output rows of span `s` is
the sum of `visit_count` over all in-span visit rows of that patient,
same-day duplicates included. -/
theorem ctVisits_eq {vs : List VRow} {ss : List SpanRow} {s : SpanRow}
    (hnd : (ss.map SpanRow.key).Nodup) (hs : s ∈ ss) :
    ctVisits ((merged ss vs).filter CRow.inRange) (SpanRow.key s) =
      ((inSpanVisits vs (SpanRow.key s)).map VRow.outpatient_visit_count).sum := by
  rw [ctVisits, filter_key_merged hnd hs, List.map_map]
  rfl

/-- The `transform(count)` value computed after the de-duplication on
(patient, span, date) is the number of distinct visit dates inside the
span. -/
theorem ctDays_eq {vs : List VRow} {ss : List SpanRow} {s : SpanRow}
    (hnd : (ss.map SpanRow.key).Nodup) (hs : s ∈ ss) :
    ctDays (maybeDedup ((merged ss vs).filter CRow.inRange)) (SpanRow.key s) =
      ((inSpanVisits vs (SpanRow.key s)).map VRow.date).toFinset.card := by
  rw [ctDays, maybeDedup_eq,
    filter_dedupKey dayKey _ (fun x y hxy => by rw [spanKey_eq_of_dayKey_eq hxy]) _,
    filter_key_merged hnd hs, length_dedupKey, List.map_map]
  have hinj : Function.Injective
      (fun d : Date => (s.patient_id, s.enrollment_start_date,
        s.enrollment_end_date, d)) := fun d1 d2 hd => by simpa using hd
  have hcomp : (dayKey ∘ (fun v : VRow => CRow.mk s.patient_id
      s.enrollment_start_date s.enrollment_end_date v.date v.outpatient_visit_count)) =
      (fun d : Date => (s.patient_id, s.enrollment_start_date,
        s.enrollment_end_date, d)) ∘ VRow.date := rfl
  rw [hcomp, ← List.map_map, list_toFinset_map,
    Finset.card_image_of_injective _ hinj]

theorem mem_visitAggregate {ss : List SpanRow} {vs : List VRow} {o : OutRow} :
    o ∈ visitAggregate ss vs ↔
      ∃ c ∈ maybeDedup ((merged ss vs).filter CRow.inRange),
        o = OutRow.mk c.patient_id c.enrollment_start_date c.enrollment_end_date
          (ctVisits ((merged ss vs).filter CRow.inRange) (spanKey c))
          (ctDays (maybeDedup ((merged ss vs).filter CRow.inRange)) (spanKey c)) := by
  simp only [visitAggregate]
  rw [mem_dedupKey_id, List.mem_map]
  constructor
  · rintro ⟨c, hc, hco⟩
    exact ⟨c, hc, hco.symm⟩
  · rintro ⟨c, hc, hco⟩
    exact ⟨c, hc, hco.symm⟩

theorem length_le_sum_map {α : Type} (f : α → Nat) (l : List α)
    (h : ∀ a ∈ l, 1 ≤ f a) : l.length ≤ (l.map f).sum := by
  induction l with
  | nil => simp
  | cons a l ih =>
    rw [List.length_cons, List.map_cons, List.sum_cons]
    have h1 := h a (List.mem_cons_self a l)
    have h2 := ih fun b hb => h b (List.mem_cons_of_mem a hb)
    omega

theorem merged_perm (ss : List SpanRow) {v1 v2 : List VRow} (hv : v1.Perm v2) :
    (merged ss v1).Perm (merged ss v2) := by
  induction ss with
  | nil => exact List.Perm.refl _
  | cons s ss ih =>
    rw [merged, merged]
    exact ((hv.filter _).map _).append ih

theorem maybeDedup_dayKey_toFinset (f : List CRow) :
    ((maybeDedup f).map dayKey).toFinset = (f.map dayKey).toFinset := by
  rw [maybeDedup_eq, dedupKey, map_key_dedupKeyAux_toFinset]
  simp

theorem filtered_inRange {ss : List SpanRow} {vs : List VRow} :
    ∀ c ∈ (merged ss vs).filter CRow.inRange,
      dateLe c.enrollment_start_date c.date = true ∧
        dateLe c.date c.enrollment_end_date = true := by
  intro c hc
  have h := (List.mem_filter.mp hc).2
  rw [CRow.inRange, Bool.and_eq_true] at h
  exact h

/-- Appending a visit row that matches none of its patient's spans
leaves the filtered merge unchanged: the new row is dropped by the
range filter for every span it joins to. -/
theorem merged_append_single (ss : List SpanRow) (vs : List VRow) (v : VRow)
    (h : ∀ s ∈ ss, s.patient_id = v.patient_id →
      ¬(dateLe s.enrollment_start_date v.date = true ∧
        dateLe v.date s.enrollment_end_date = true)) :
    (merged ss (vs ++ [v])).filter CRow.inRange =
      (merged ss vs).filter CRow.inRange := by
  induction ss with
  | nil => rfl
  | cons s0 ss ih =>
    rw [merged, merged, List.filter_append, List.filter_append,
      ih fun s hs => h s (List.mem_cons_of_mem s0 hs)]
    rw [List.filter_append]
    by_cases hp : (v.patient_id == s0.patient_id) = true
    · have hnr := h s0 (List.mem_cons_self s0 ss) (beq_iff_eq.mp hp).symm
      have hone : List.filter (fun v2 => v2.patient_id == s0.patient_id) [v] = [v] := by
        rw [List.filter_cons, if_pos hp]
        rfl
      rw [hone, List.map_append]
      have hzero : List.filter CRow.inRange
          ([v].map (fun v2 => CRow.mk s0.patient_id s0.enrollment_start_date
            s0.enrollment_end_date v2.date v2.outpatient_visit_count)) = [] := by
        rw [List.map_cons, List.map_nil, List.filter_cons]
        rw [if_neg ?hng, List.filter_nil]
        case hng =>
          intro hcon
          rw [CRow.inRange, Bool.and_eq_true] at hcon
          exact hnr hcon
      rw [List.filter_append, hzero, List.append_nil]
    · have hnone : List.filter (fun v2 => v2.patient_id == s0.patient_id) [v] = [] := by
        rw [List.filter_cons, if_neg hp]
        rfl
      rw [hnone, List.append_nil]

theorem maybeDedup_sublist (l : List CRow) : (maybeDedup l).Sublist l := by
  rw [maybeDedup_eq]
  exact dedupKey_sublist dayKey l

theorem exceptMap_error {α β : Type} (f : α → Except Unit β) (l : List α)
    {x : α} (hx : x ∈ l) (hfx : f x = Except.error ()) :
    exceptMap f l = Except.error () := by
  induction l with
  | nil => exact absurd hx (List.not_mem_nil x)
  | cons y ys ih =>
    rw [exceptMap]
    rcases List.mem_cons.mp hx with he | hmem
    · rw [← he, hfx]
      rfl
    · cases hfy : f y with
      | error e =>
        cases e
        rfl
      | ok v =>
        rw [ih hmem]
        rfl

theorem exceptMap_ok {α β : Type} (f : α → Except Unit β) (l : List α)
    (h : ∀ x ∈ l, f x ≠ Except.error ()) :
    ∃ out, exceptMap f l = Except.ok out := by
  induction l with
  | nil => exact ⟨[], rfl⟩
  | cons y ys ih =>
    obtain ⟨out, hout⟩ := ih fun x hx => h x (List.mem_cons_of_mem y hx)
    cases hfy : f y with
    | error e =>
      cases e
      exact absurd hfy (h y (List.mem_cons_self y ys))
    | ok v =>
      refine ⟨v :: out, ?_⟩
      rw [exceptMap, hfy, hout]
      rfl

theorem visitAggregate_perm_sub (ss : List SpanRow) {v1 v2 : List VRow}
    (hv : v1.Perm v2) (o : OutRow) (ho : o ∈ visitAggregate ss v1) :
    o ∈ visitAggregate ss v2 := by
  have hf := (merged_perm ss hv).filter CRow.inRange
  have hsum : ∀ k, ctVisits ((merged ss v1).filter CRow.inRange) k =
      ctVisits ((merged ss v2).filter CRow.inRange) k := by
    intro k
    rw [ctVisits, ctVisits]
    exact ((hf.filter _).map _).sum_eq
  have hdk : (((merged ss v1).filter CRow.inRange).map dayKey).toFinset =
      (((merged ss v2).filter CRow.inRange).map dayKey).toFinset :=
    List.toFinset_eq_of_perm _ _ (hf.map _)
  have hdays : ∀ k, ctDays (maybeDedup ((merged ss v1).filter CRow.inRange)) k =
      ctDays (maybeDedup ((merged ss v2).filter CRow.inRange)) k := by
    intro k
    rw [ctDays, ctDays, maybeDedup_eq, maybeDedup_eq,
      filter_dedupKey dayKey _ (fun x y hxy => by rw [spanKey_eq_of_dayKey_eq hxy]) _,
      filter_dedupKey dayKey _ (fun x y hxy => by rw [spanKey_eq_of_dayKey_eq hxy]) _,
      length_dedupKey, length_dedupKey]
    congr 1
    exact List.toFinset_eq_of_perm _ _ ((hf.filter _).map _)
  obtain ⟨c, hc, hoe⟩ := mem_visitAggregate.mp ho
  have h1 : dayKey c ∈ (maybeDedup ((merged ss v1).filter CRow.inRange)).map dayKey :=
    List.mem_map_of_mem dayKey hc
  have h2 : dayKey c ∈ (maybeDedup ((merged ss v2).filter CRow.inRange)).map dayKey := by
    have hin := List.mem_toFinset.mpr h1
    rw [maybeDedup_dayKey_toFinset, hdk, ← maybeDedup_dayKey_toFinset] at hin
    exact List.mem_toFinset.mp hin
  obtain ⟨c2, hc2, hck⟩ := List.mem_map.mp h2
  have hks : spanKey c2 = spanKey c := spanKey_eq_of_dayKey_eq hck
  refine mem_visitAggregate.mpr ⟨c2, hc2, ?_⟩
  have hp : c2.patient_id = c.patient_id := congrArg Prod.fst hks
  have hsd : c2.enrollment_start_date = c.enrollment_start_date :=
    congrArg (fun k : Nat × Date × Date => k.2.1) hks
  have hed : c2.enrollment_end_date = c.enrollment_end_date :=
    congrArg (fun k : Nat × Date × Date => k.2.2) hks
  rw [hoe, hp, hsd, hed, hks, hsum (spanKey c), hdays (spanKey c)]

/-! ### The claims -/

/-- C1: the claim says months of different patients are never grouped
into the same span.  The code violates it: the break test of lines
106-109 ignores patient_id, so patient 1 enrolled only in March 2023
and patient 2 enrolled only in April 2023 are merged into one group,
and both receive the span 2023-03-01 to 2023-04-30.  This contradicts
the code's own comment (line 76: groups are generated "for each
patient_id") — a code bug, evaluated here on the failing input. -/
theorem claim_C1_code_eval :
    spanBuilder [⟨1, ⟨2023, 3, 1⟩⟩, ⟨2, ⟨2023, 4, 1⟩⟩] =
      [⟨1, ⟨2023, 3, 1⟩, ⟨2023, 4, 30⟩⟩, ⟨2, ⟨2023, 3, 1⟩, ⟨2023, 4, 30⟩⟩] := by
  decide

/-- C2: the claim says a patient's spans are pairwise non-overlapping
and maximal, also under duplicate (patient_id, month) rows.  The code
violates it: a duplicated month makes the diff-based break test open a
spurious singleton group, and patient 1 with rows {Jan, Jan, Feb} gets
the two overlapping spans Jan 1-Jan 31 and Jan 1-Feb 28.  Evaluated
here on the failing input, together with the overlap of the two
emitted spans. -/
theorem claim_C2_code_eval :
    spanBuilder [⟨1, ⟨2023, 1, 1⟩⟩, ⟨1, ⟨2023, 1, 1⟩⟩, ⟨1, ⟨2023, 2, 1⟩⟩] =
      [⟨1, ⟨2023, 1, 1⟩, ⟨2023, 1, 31⟩⟩, ⟨1, ⟨2023, 1, 1⟩, ⟨2023, 2, 28⟩⟩] ∧
    spansOverlap ⟨1, ⟨2023, 1, 1⟩, ⟨2023, 1, 31⟩⟩
      ⟨1, ⟨2023, 1, 1⟩, ⟨2023, 2, 28⟩⟩ = true := by
  exact ⟨by decide, by decide⟩

/-- C4 counterexample: the claim says enrollment_start is the first
calendar day of the run's first month, and that an isolated single
month yields a first-to-last-day span.  The code keeps the raw
day-of-month of the input date for the start: the single row 3/15/23
yields the span 2023-03-15 to 2023-03-31, whose start is not the first
of March. -/
theorem claim_C4_counterexample :
    spanBuilder [⟨1, ⟨2023, 3, 15⟩⟩] = [⟨1, ⟨2023, 3, 15⟩, ⟨2023, 3, 31⟩⟩] ∧
      (⟨2023, 3, 15⟩ : Date).day ≠ 1 := by
  exact ⟨by decide, by decide⟩

/-- C4 amended: for every span emitted, enrollment_end is the last
calendar day of its month with 28/29/30/31 handled correctly (Feb 2024
has 29 days, April 30); enrollment_start is one of the raw input
month_year dates, hence the first day of a month whenever the input is
normalized to day 1 — with unnormalized days the raw day is kept. -/
theorem claim_C4_amended (enr : List ERow) :
    (∀ s ∈ spanBuilder enr,
      s.enrollment_end_date.day =
        daysInMonth s.enrollment_end_date.year s.enrollment_end_date.month ∧
      (∃ r ∈ enr, s.enrollment_start_date = r.month_year) ∧
      ((∀ r ∈ enr, r.month_year.day = 1) → s.enrollment_start_date.day = 1)) ∧
    daysInMonth 2024 2 = 29 ∧ daysInMonth 2023 4 = 30 := by
  refine ⟨?_, by decide, by decide⟩
  intro s hs
  obtain ⟨⟨r, hr, hre⟩, _⟩ := spanBuilder_dates hs
  exact ⟨spanBuilder_end_day hs, ⟨r, hr, hre⟩,
    fun hday => by rw [hre]; exact hday r hr⟩

/-- C4 witness: the amended theorem applied to a patient enrolled in
January and February 2024; the emitted span ends on Feb 29 (leap
year), the last day of its month. -/
theorem claim_C4_witness :
    ((⟨1, ⟨2024, 1, 1⟩, ⟨2024, 2, 29⟩⟩ : SpanRow) ∈
        spanBuilder [⟨1, ⟨2024, 1, 1⟩⟩, ⟨1, ⟨2024, 2, 1⟩⟩]) ∧
      (⟨2024, 2, 29⟩ : Date).day = daysInMonth 2024 2 :=
  ⟨by decide,
    ((claim_C4_amended [⟨1, ⟨2024, 1, 1⟩⟩, ⟨1, ⟨2024, 2, 1⟩⟩]).1
      ⟨1, ⟨2024, 1, 1⟩, ⟨2024, 2, 29⟩⟩ (by decide)).1⟩

/-- C7: whenever two enrollment records carry different years, the
printed sanity check of line 93 — `(year == 2023).all()` — evaluates to
False, surfacing the violation of the single-year assumption (the run
then continues, but the anomaly is reported, not silent). -/
theorem claim_C7 (enr : List ERow) (r1 r2 : ERow) (h1 : r1 ∈ enr)
    (h2 : r2 ∈ enr) (hy : r1.month_year.year ≠ r2.month_year.year) :
    yearCheck enr = false := by
  cases hchk : yearCheck enr with
  | false => rfl
  | true =>
    exfalso
    rw [yearCheck] at hchk
    have hall := List.all_eq_true.mp hchk
    have e1 : r1.month_year.year = 2023 :=
      beq_iff_eq.mp (hall r1 (mem_sortE.mpr h1))
    have e2 : r2.month_year.year = 2023 :=
      beq_iff_eq.mp (hall r2 (mem_sortE.mpr h2))
    exact hy (e1.trans e2.symm)

/-- C7 witness: a 2023 record together with a 2024 record makes the
printed check False. -/
theorem claim_C7_witness :
    ((⟨1, ⟨2023, 3, 1⟩⟩ : ERow) ∈
        ([⟨1, ⟨2023, 3, 1⟩⟩, ⟨1, ⟨2024, 4, 1⟩⟩] : List ERow)) ∧
      yearCheck [⟨1, ⟨2023, 3, 1⟩⟩, ⟨1, ⟨2024, 4, 1⟩⟩] = false :=
  ⟨by decide,
    claim_C7 [⟨1, ⟨2023, 3, 1⟩⟩, ⟨1, ⟨2024, 4, 1⟩⟩] ⟨1, ⟨2023, 3, 1⟩⟩
      ⟨1, ⟨2024, 4, 1⟩⟩ (by decide) (by decide) (by decide)⟩

/-- C8 counterexample: the claim says a row with an unparseable date is
dropped and the run completes normally.  In the code `to_datetime` is
called with its default `errors=raise`, so a surviving row with an
unparseable date aborts the whole run instead. -/
theorem claim_C8_counterexample :
    ingestEnrollment [⟨StrCell.val 1, DateCell.bad⟩] = Except.error () := by
  rfl

/-- C8 amended: rows in which every field is missing are dropped by
`dropna(how=all)` and a clean file ingests successfully, but a
surviving row with an unparseable date — or, in the visit file, a
non-numeric count — aborts the run with an error instead of being
dropped. -/
theorem claim_C8_amended :
    (∀ (l : List RawERow) (r : RawERow),
      r ∈ dropnaE l ↔ (r ∈ l ∧ r.allNA = false)) ∧
    (∀ (l : List RawERow) (r : RawERow), r ∈ dropnaE l →
      r.month_year = DateCell.bad → ingestEnrollment l = Except.error ()) ∧
    (∀ (l : List RawVRow) (r : RawVRow), r ∈ l →
      r.outpatient_visit_count = IntCell.bad →
      ingestVisits l = Except.error ()) ∧
    (∀ l : List RawERow, (∀ r ∈ dropnaE l, r.month_year ≠ DateCell.bad) →
      ∃ out, ingestEnrollment l = Except.ok out) := by
  refine ⟨?_, ?_, ?_, ?_⟩
  · intro l r
    rw [dropnaE, List.mem_filter, Bool.not_eq_true']
  · intro l r hr hbad
    rw [ingestEnrollment]
    refine exceptMap_error _ _ hr ?_
    rw [hbad]
    rfl
  · intro l r hr hbad
    rw [ingestVisits, readVisitCsv, if_neg]
    · rfl
    · intro hall
      have := List.all_eq_true.mp hall r hr
      rw [hbad] at this
      simp at this
  · intro l hok
    rw [ingestEnrollment]
    refine exceptMap_ok _ _ ?_
    intro r hr
    cases hd : r.month_year with
    | na => rw [toDatetime]; exact fun hc => Except.noConfusion hc
    | val d => rw [toDatetime]; exact fun hc => Except.noConfusion hc
    | bad => exact absurd hd (hok r hr)

/-- C8 witness: the amended theorem applied to a one-row file whose
date cell is unparseable; the ingestion aborts with an error. -/
theorem claim_C8_witness :
    ((⟨StrCell.val 2, DateCell.bad⟩ : RawERow) ∈
        dropnaE [⟨StrCell.val 2, DateCell.bad⟩]) ∧
      ingestEnrollment [⟨StrCell.val 2, DateCell.bad⟩] = Except.error () :=
  ⟨by decide,
    claim_C8_amended.2.1 [⟨StrCell.val 2, DateCell.bad⟩]
      ⟨StrCell.val 2, DateCell.bad⟩ (by decide) rfl⟩

/-- C9: the month-contiguity test consults only the month number: any
two successive records of the grouped (sorted) frame whose months
differ by exactly one are assigned the same group — and hence fall in
the same span — whatever their years. -/
theorem claim_C9 (enr : List ERow) (pre post : List (ERow × Nat))
    (a b : ERow × Nat)
    (h : assignGroups (sortE enr) = pre ++ a :: b :: post)
    (hm : ((b.1).month_year.month : Int) - ((a.1).month_year.month : Int) = 1) :
    b.2 = a.2 :=
  assignGroups_adj (sortE enr) pre post a b h hm

/-- C9 witness: 3/2022 followed by 4/2024 is grouped as contiguous and
both records end up in the single span 2022-03-01 to 2024-04-30. -/
theorem claim_C9_witness :
    (assignGroups (sortE [⟨1, ⟨2022, 3, 1⟩⟩, ⟨1, ⟨2024, 4, 1⟩⟩]) =
      [] ++ (⟨1, ⟨2022, 3, 1⟩⟩, 1) :: (⟨1, ⟨2024, 4, 1⟩⟩, 1) :: []) ∧
    ((⟨1, ⟨2024, 4, 1⟩⟩, 1) : ERow × Nat).2 =
      ((⟨1, ⟨2022, 3, 1⟩⟩, 1) : ERow × Nat).2 ∧
    spanBuilder [⟨1, ⟨2022, 3, 1⟩⟩, ⟨1, ⟨2024, 4, 1⟩⟩] =
      [⟨1, ⟨2022, 3, 1⟩, ⟨2024, 4, 30⟩⟩] :=
  ⟨by decide,
    claim_C9 [⟨1, ⟨2022, 3, 1⟩⟩, ⟨1, ⟨2024, 4, 1⟩⟩] [] []
      (⟨1, ⟨2022, 3, 1⟩⟩, 1) (⟨1, ⟨2024, 4, 1⟩⟩, 1) (by decide) (by decide),
    by decide⟩

/-- C3: for every row of the final output, ct_outpatient_visits is the
sum of visit_count over all in-span visit rows of that patient,
same-day duplicates included, while ct_days_with_outpatient_visit is
the number of distinct visit dates in the span.  The hypothesis is the
data model's month-granularity normalization of `month_year` (day 1),
which guarantees the span frame has no duplicate rows. -/
theorem claim_C3 (enr : List ERow) (visits : List VRow)
    (hday : ∀ r ∈ enr, r.month_year.day = 1) :
    ∀ o ∈ pipeline enr visits,
      o.ct_outpatient_visits =
        ((inSpanVisits visits (o.patient_id, o.enrollment_start_date,
          o.enrollment_end_date)).map VRow.outpatient_visit_count).sum ∧
      o.ct_days_with_outpatient_visit =
        ((inSpanVisits visits (o.patient_id, o.enrollment_start_date,
          o.enrollment_end_date)).map VRow.date).toFinset.card := by
  intro o ho
  rw [pipeline] at ho
  obtain ⟨c, hc, hoe⟩ := mem_visitAggregate.mp ho
  have hcf : c ∈ (merged (spanBuilder enr) visits).filter CRow.inRange :=
    (maybeDedup_sublist _).subset hc
  obtain ⟨⟨s, hsmem, hks⟩, _⟩ := mem_merged (List.mem_filter.mp hcf).1
  have hnd := spanBuilder_keys_nodup hday
  rw [hoe]
  constructor
  · show ctVisits ((merged (spanBuilder enr) visits).filter CRow.inRange)
        (spanKey c) =
      ((inSpanVisits visits (spanKey c)).map VRow.outpatient_visit_count).sum
    rw [hks]
    exact @ctVisits_eq visits (spanBuilder enr) s hnd hsmem
  · show ctDays
        (maybeDedup ((merged (spanBuilder enr) visits).filter CRow.inRange))
        (spanKey c) =
      ((inSpanVisits visits (spanKey c)).map VRow.date).toFinset.card
    rw [hks]
    exact @ctDays_eq visits (spanBuilder enr) s hnd hsmem

/-- C3 witness: the claim's own example — two visit rows for the same
patient and date with counts 2 and 3 inside a January span give
ct_outpatient_visits 5 and ct_days_with_outpatient_visit 1. -/
theorem claim_C3_witness :
    (∀ r ∈ ([⟨1, ⟨2023, 1, 1⟩⟩] : List ERow), r.month_year.day = 1) ∧
    ((OutRow.mk 1 ⟨2023, 1, 1⟩ ⟨2023, 1, 31⟩ 5 1) ∈
      pipeline [⟨1, ⟨2023, 1, 1⟩⟩]
        [⟨1, ⟨2023, 1, 7⟩, 2⟩, ⟨1, ⟨2023, 1, 7⟩, 3⟩]) ∧
    ((OutRow.mk 1 ⟨2023, 1, 1⟩ ⟨2023, 1, 31⟩ 5 1).ct_outpatient_visits =
      ((inSpanVisits [⟨1, ⟨2023, 1, 7⟩, 2⟩, ⟨1, ⟨2023, 1, 7⟩, 3⟩]
        (1, ⟨2023, 1, 1⟩, ⟨2023, 1, 31⟩)).map VRow.outpatient_visit_count).sum ∧
    (OutRow.mk 1 ⟨2023, 1, 1⟩ ⟨2023, 1, 31⟩ 5 1).ct_days_with_outpatient_visit =
      ((inSpanVisits [⟨1, ⟨2023, 1, 7⟩, 2⟩, ⟨1, ⟨2023, 1, 7⟩, 3⟩]
        (1, ⟨2023, 1, 1⟩, ⟨2023, 1, 31⟩)).map VRow.date).toFinset.card) :=
  ⟨by decide, by decide,
    claim_C3 [⟨1, ⟨2023, 1, 1⟩⟩] [⟨1, ⟨2023, 1, 7⟩, 2⟩, ⟨1, ⟨2023, 1, 7⟩, 3⟩]
      (by decide) (OutRow.mk 1 ⟨2023, 1, 1⟩ ⟨2023, 1, 31⟩ 5 1) (by decide)⟩

/-- C5: every joined row that survives the range filter has its date in
the closed span interval, and a visit row whose date lies outside all
of its patient's spans leaves the final output unchanged — it is
excluded from every aggregate. -/
theorem claim_C5 (enr : List ERow) (visits : List VRow) (v : VRow)
    (h : ∀ s ∈ spanBuilder enr, s.patient_id = v.patient_id →
      ¬(dateLe s.enrollment_start_date v.date = true ∧
        dateLe v.date s.enrollment_end_date = true)) :
    pipeline enr (visits ++ [v]) = pipeline enr visits ∧
      ∀ c ∈ (merged (spanBuilder enr) visits).filter CRow.inRange,
        dateLe c.enrollment_start_date c.date = true ∧
          dateLe c.date c.enrollment_end_date = true := by
  refine ⟨?_, filtered_inRange⟩
  simp only [pipeline, visitAggregate]
  rw [merged_append_single _ _ _ h]

/-- C5 witness: a visit dated 2023-02-01, one day after the span
2023-01-01 to 2023-01-31 of its patient, changes nothing in the
output. -/
theorem claim_C5_witness :
    (∀ s ∈ spanBuilder [⟨1, ⟨2023, 1, 1⟩⟩],
      s.patient_id = (⟨1, ⟨2023, 2, 1⟩, 4⟩ : VRow).patient_id →
      ¬(dateLe s.enrollment_start_date (⟨1, ⟨2023, 2, 1⟩, 4⟩ : VRow).date = true ∧
        dateLe (⟨1, ⟨2023, 2, 1⟩, 4⟩ : VRow).date s.enrollment_end_date = true)) ∧
    pipeline [⟨1, ⟨2023, 1, 1⟩⟩]
        ([⟨1, ⟨2023, 1, 7⟩, 2⟩] ++ [⟨1, ⟨2023, 2, 1⟩, 4⟩]) =
      pipeline [⟨1, ⟨2023, 1, 1⟩⟩] [⟨1, ⟨2023, 1, 7⟩, 2⟩] :=
  ⟨by decide,
    (claim_C5 [⟨1, ⟨2023, 1, 1⟩⟩] [⟨1, ⟨2023, 1, 7⟩, 2⟩]
      ⟨1, ⟨2023, 2, 1⟩, 4⟩ (by decide)).1⟩

/-- C6: when every input visit_count is at least 1, every output row
satisfies ct_days_with_outpatient_visit less-or-equal
ct_outpatient_visits: the de-duplicated day rows are a sublist of the
summed rows, and each summed row contributes at least 1. -/
theorem claim_C6 (enr : List ERow) (visits : List VRow)
    (hcnt : ∀ v ∈ visits, 1 ≤ v.outpatient_visit_count) :
    ∀ o ∈ pipeline enr visits,
      o.ct_days_with_outpatient_visit ≤ o.ct_outpatient_visits := by
  intro o ho
  rw [pipeline] at ho
  obtain ⟨c, hc, hoe⟩ := mem_visitAggregate.mp ho
  rw [hoe]
  show ctDays
      (maybeDedup ((merged (spanBuilder enr) visits).filter CRow.inRange))
      (spanKey c) ≤
    ctVisits ((merged (spanBuilder enr) visits).filter CRow.inRange) (spanKey c)
  rw [ctDays, ctVisits]
  refine le_trans (((maybeDedup_sublist _).filter _).length_le) ?_
  refine length_le_sum_map _ _ ?_
  intro c2 hc2
  obtain ⟨_, v, hv, hvc⟩ :=
    mem_merged (List.mem_filter.mp (List.mem_filter.mp hc2).1).1
  rw [hvc]
  exact hcnt v hv

/-- C6 witness: the invariant at the same-day 2-and-3 example, where
the output row has 1 distinct day and 5 visits. -/
theorem claim_C6_witness :
    (∀ v ∈ ([⟨1, ⟨2023, 1, 7⟩, 2⟩, ⟨1, ⟨2023, 1, 7⟩, 3⟩] : List VRow),
      1 ≤ v.outpatient_visit_count) ∧
    (OutRow.mk 1 ⟨2023, 1, 1⟩ ⟨2023, 1, 31⟩ 5 1).ct_days_with_outpatient_visit ≤
      (OutRow.mk 1 ⟨2023, 1, 1⟩ ⟨2023, 1, 31⟩ 5 1).ct_outpatient_visits :=
  ⟨by decide,
    claim_C6 [⟨1, ⟨2023, 1, 1⟩⟩] [⟨1, ⟨2023, 1, 7⟩, 2⟩, ⟨1, ⟨2023, 1, 7⟩, 3⟩]
      (by decide) (OutRow.mk 1 ⟨2023, 1, 1⟩ ⟨2023, 1, 31⟩ 5 1) (by decide)⟩

/-- C10: the pipeline is insensitive to input row order: permuting the
enrollment rows leaves the built span list literally unchanged (the
sort key is the whole row), and permuting the visit rows leaves the set
of final output rows unchanged. -/
theorem claim_C10 (enr1 enr2 : List ERow) (v1 v2 : List VRow)
    (he : enr1.Perm enr2) (hv : v1.Perm v2) :
    spanBuilder enr1 = spanBuilder enr2 ∧
      ∀ o : OutRow, o ∈ pipeline enr1 v1 ↔ o ∈ pipeline enr2 v2 := by
  have hspan : spanBuilder enr1 = spanBuilder enr2 := by
    rw [spanBuilder, spanBuilder, spanTriples, spanTriples, sortE_eq_of_perm he]
  refine ⟨hspan, fun o => ?_⟩
  rw [pipeline, pipeline, hspan]
  exact ⟨visitAggregate_perm_sub _ hv o, visitAggregate_perm_sub _ hv.symm o⟩

/-- C10 witness: reversing both input files leaves the span list
unchanged. -/
theorem claim_C10_witness :
    (([⟨1, ⟨2023, 1, 1⟩⟩, ⟨1, ⟨2023, 2, 1⟩⟩] : List ERow).Perm
        [⟨1, ⟨2023, 2, 1⟩⟩, ⟨1, ⟨2023, 1, 1⟩⟩]) ∧
    (([⟨1, ⟨2023, 1, 5⟩, 2⟩, ⟨1, ⟨2023, 2, 6⟩, 3⟩] : List VRow).Perm
        [⟨1, ⟨2023, 2, 6⟩, 3⟩, ⟨1, ⟨2023, 1, 5⟩, 2⟩]) ∧
    spanBuilder [⟨1, ⟨2023, 1, 1⟩⟩, ⟨1, ⟨2023, 2, 1⟩⟩] =
      spanBuilder [⟨1, ⟨2023, 2, 1⟩⟩, ⟨1, ⟨2023, 1, 1⟩⟩] :=
  ⟨by decide, by decide,
    (claim_C10 [⟨1, ⟨2023, 1, 1⟩⟩, ⟨1, ⟨2023, 2, 1⟩⟩]
      [⟨1, ⟨2023, 2, 1⟩⟩, ⟨1, ⟨2023, 1, 1⟩⟩]
      [⟨1, ⟨2023, 1, 5⟩, 2⟩, ⟨1, ⟨2023, 2, 6⟩, 3⟩]
      [⟨1, ⟨2023, 2, 6⟩, 3⟩, ⟨1, ⟨2023, 1, 5⟩, 2⟩]
      (by decide) (by decide)).1⟩
